import Mathlib

/-!
# Tzu Chi library app — verification of the catalog–ledger consistency core

Shallow embedding of the data model and operations of `library_webapp.py`
(plus `credentials.py`): CSV rows become Lean structures with string fields,
the pandas load/normalize routines become list functions, and the Streamlit
borrow/return/sync handlers become explicit state transformers over an
immutable `LibState` snapshot (catalog rows plus ledger rows), as the spec's
§9 suggests.  Python `str` values are modelled as Lean `String` (ASCII
semantics for `isalnum` / `upper` / `lower` / `strip`, which is what the
data in this app uses); `pandas.sort_values` is modelled as a stable sort,
so `groupby(...).cumcount()` after sorting, re-aligned by index, equals
"number of earlier rows with the same key".
-/

/-- Scanner-input normalization, from `_canon` (library_webapp.py:68-73):
`"".join(ch for ch in s if ch.isalnum()).upper()` — keep alphanumerics,
uppercase.  List-level core. -/
def canonList (l : List Char) : List Char :=
  (l.filter Char.isAlphanum).map Char.toUpper

/-- `_canon` on a possibly-null Python string (`if s is None: return ""`). -/
def _canon : Option String → String
  | none => ""
  | some s => String.mk (canonList s.data)

/-- Model of Python `str.strip()` (ASCII whitespace): drop leading and
trailing whitespace characters. -/
def pyStrip (s : String) : String :=
  String.mk (((s.data.dropWhile Char.isWhitespace).reverse.dropWhile
    Char.isWhitespace).reverse)

/-- One catalog row of `Library_books.csv` (one physical copy), columns
`Book ID`, `Book Title`, `Author`, `Status`, `Barcode` as in
`load_books` (library_webapp.py:267-315). All CSV values are strings. -/
structure Copy where
  bookId : String
  title : String
  author : String
  status : String
  barcode : String
deriving Repr, DecidableEq

/-- One ledger row of `Borrow_log.csv`, columns `Student`, `Book Title`,
`Book ID`, `Date Borrowed`, `Due Date`, `Returned`, `Barcode` as selected
by `load_logs` (library_webapp.py:318-375). -/
structure LogEntry where
  student : String
  title : String
  bookId : String
  dateBorrowed : String
  dueDate : String
  returned : String
  barcode : String
deriving Repr, DecidableEq

/-- Model of Python `str.lower()` (ASCII): lowercase every character. -/
def pyLower (s : String) : String := String.mk (s.data.map Char.toLower)

/-- Status normalization in `load_books` (library_webapp.py:294-299):
`.str.lower().map({"available":"Available","borrowed":"Borrowed",
"out":"Borrowed","issued":"Borrowed","":"Available"}).fillna("Available")`. -/
def normalizeStatus (s : String) : String :=
  if pyLower s = "available" then "Available"
  else if pyLower s = "borrowed" then "Borrowed"
  else if pyLower s = "out" then "Borrowed"
  else if pyLower s = "issued" then "Borrowed"
  else if pyLower s = "" then "Available"
  else "Available"

/-- `Returned` normalization in `load_logs` (library_webapp.py:364-367):
`.str.lower().map({"yes":"Yes","y":"Yes","true":"Yes","1":"Yes",
"no":"No","n":"No","false":"No","0":"No"}).fillna("No")`. -/
def normalizeReturned (s : String) : String :=
  if pyLower s = "yes" then "Yes"
  else if pyLower s = "y" then "Yes"
  else if pyLower s = "true" then "Yes"
  else if pyLower s = "1" then "Yes"
  else if pyLower s = "no" then "No"
  else if pyLower s = "n" then "No"
  else if pyLower s = "false" then "No"
  else if pyLower s = "0" then "No"
  else "No"

/-- `load_books` (library_webapp.py:267-315), row-level semantics: strip all
string values, drop rows whose `Book Title`, `Book ID` and `Barcode` are all
blank, then normalize `Status`.  The derived columns `_BARCODE_CANON`,
`_copy_num` and `_ROW_KEY` are recomputed on demand by `_canon`,
`assignOrdinals` and `rowKeyOf` below, exactly as the app recomputes them on
every reload. -/
def load_books (rows : List Copy) : List Copy :=
  let stripped := rows.map fun r =>
    { bookId := pyStrip r.bookId, title := pyStrip r.title,
      author := pyStrip r.author, status := pyStrip r.status,
      barcode := pyStrip r.barcode : Copy }
  let kept := stripped.filter fun r =>
    !(r.title == "" && r.bookId == "" && r.barcode == "")
  kept.map fun r => { r with status := normalizeStatus r.status }

/-- `load_logs` (library_webapp.py:318-375), row-level semantics: strip all
values, normalize `Returned`, drop rows whose `Student`, `Book Title`,
`Book ID` and `Barcode` are all blank. -/
def load_logs (rows : List LogEntry) : List LogEntry :=
  let stripped := rows.map fun e =>
    { student := pyStrip e.student, title := pyStrip e.title,
      bookId := pyStrip e.bookId, dateBorrowed := pyStrip e.dateBorrowed,
      dueDate := pyStrip e.dueDate, returned := pyStrip e.returned,
      barcode := pyStrip e.barcode : LogEntry }
  let normed := stripped.map fun e => { e with returned := normalizeReturned e.returned }
  normed.filter fun e =>
    !(pyStrip e.student == "" && pyStrip e.title == "" &&
      pyStrip e.bookId == "" && pyStrip e.barcode == "")

/-- The grouping tuple of `load_books`'s `_copy_num` assignment:
`(Book Title, Book ID, Barcode)`. -/
def copyKey (c : Copy) : String × String × String := (c.title, c.bookId, c.barcode)

/-- Number of rows of `l` sharing the grouping key `k`. -/
def countKey (k : String × String × String) (l : List Copy) : Nat :=
  (l.filter fun c => copyKey c == k).length

/-- Per-title copy numbering of `load_books` (library_webapp.py:304-309):
`df.sort_values(["Book Title","Book ID","Barcode"]).groupby([...]).cumcount()+1`,
assigned back to `df` by index alignment.  With the sort modelled as stable,
a row's `cumcount` in sorted order is its position among the rows sharing its
key, so after index alignment each row's ordinal is one plus the number of
EARLIER rows with the same `(title, id, barcode)` tuple — which is what the
accumulator `seen` tracks here. -/
def ordGo (seen : List Copy) : List Copy → List (Copy × Nat)
  | [] => []
  | c :: rest => (c, countKey (copyKey c) seen + 1) :: ordGo (seen ++ [c]) rest

/-- Each catalog row paired with its `_copy_num` ordinal. -/
def assignOrdinals (l : List Copy) : List (Copy × Nat) := ordGo [] l

/-- `_ROW_KEY` of a row (library_webapp.py:312-314):
`title ++ "||" ++ id ++ "||" ++ barcode ++ "||" ++ str(copy_num)`. -/
def rowKeyOf (c : Copy) (n : Nat) : String :=
  c.title ++ "||" ++ c.bookId ++ "||" ++ c.barcode ++ "||" ++ toString n

/-- The `_ROW_KEY` column of a loaded catalog. -/
def keysOf (l : List Copy) : List String :=
  (assignOrdinals l).map fun p => rowKeyOf p.1 p.2

/-- Resolution of a selected copy by `_ROW_KEY`
(`books.loc[books["_ROW_KEY"] == final_row_key]`, first row). -/
def findByRowKey (l : List Copy) (k : String) : Option (Copy × Nat) :=
  (assignOrdinals l).find? fun p => rowKeyOf p.1 p.2 == k

/-- `books_now.loc[books_now["_ROW_KEY"] == k, "Status"] = st`
(library_webapp.py:666): every row whose `_ROW_KEY` equals `k` gets the new
status. -/
def setStatusByRowKey (l : List Copy) (k : String) (st : String) : List Copy :=
  (assignOrdinals l).map fun p =>
    if rowKeyOf p.1 p.2 == k then { p.1 with status := st } else p.1

/-- In-memory snapshot of the two tables the borrow/return/sync handlers
read-modify-write (the roster is not mutated by them). -/
structure LibState where
  books : List Copy
  logs : List LogEntry
deriving Repr, DecidableEq

/-- The user-facing error conditions of the handlers (spec §7): missing
input, unresolvable selection, precondition conflict. -/
inductive OpError where
  | validation
  | notFound
  | conflict
deriving Repr, DecidableEq

/-- The ledger row appended by a confirmed Borrow
(library_webapp.py:652-660). -/
def mkBorrowEntry (student : String) (r : Copy) (nowS dueS : String) : LogEntry :=
  { student := student, title := r.title, bookId := r.bookId,
    dateBorrowed := nowS, dueDate := dueS, returned := "No",
    barcode := r.barcode }

/-- Borrow-tab confirm handler (library_webapp.py:633-670), after the UI has
resolved `final_student` and `final_row_key`: validate both inputs, pull the
exact copy row by `_ROW_KEY`, reject a `Borrowed` copy unless the
back-capture override is ticked, otherwise append an open ledger row and
mark that catalog row `Borrowed`.  On error the handler saves nothing, so
the state component is returned unchanged.  Timestamps are the opaque
preformatted strings `nowS`/`dueS`. -/
def borrowStep (s : LibState) (student : String) (rowKey? : Option String)
    (override : Bool) (nowS dueS : String) : LibState × Option OpError :=
  match rowKey? with
  | none => (s, some .validation)
  | some k =>
    if student = "" then (s, some .validation)
    else
      match findByRowKey s.books k with
      | none => (s, some .notFound)
      | some (r, _) =>
        if r.status == "Borrowed" && !override then (s, some .conflict)
        else
          ({ books := setStatusByRowKey s.books k "Borrowed",
             logs := s.logs ++ [mkBorrowEntry student r nowS dueS] }, none)

/-- The ledger-row match of the Return handler (library_webapp.py:710-714):
same `Student`, `Book Title` and `Date Borrowed` as the selected row. -/
def logMatch (row e : LogEntry) : Bool :=
  e.student == row.student && e.title == row.title &&
    e.dateBorrowed == row.dateBorrowed

/-- The catalog-row match of the Return handler (library_webapp.py:721-725):
stripped `Book Title`, `Book ID` and `Barcode` must all equal the selected
ledger row's stripped fields. -/
def copyMatchesRow (row : LogEntry) (c : Copy) : Bool :=
  pyStrip c.title == pyStrip row.title &&
    pyStrip c.bookId == pyStrip row.bookId &&
      pyStrip c.barcode == pyStrip row.barcode

/-- Return-tab confirm handler (library_webapp.py:708-731), after the UI has
resolved the selected open row: if some ledger row matches it, flip
`Returned` to `Yes` on every matching ledger row, and set `Status` to
`Available` on the catalog rows matching the selected row's stripped
`(title, id, barcode)` — if any exist; otherwise report the missing borrow
record and change nothing. -/
def returnStep (s : LibState) (row : LogEntry) : LibState × Option OpError :=
  if s.logs.any (logMatch row) then
    let logs2 := s.logs.map fun e =>
      if logMatch row e then { e with returned := "Yes" } else e
    let books2 :=
      if s.books.any (copyMatchesRow row) then
        s.books.map fun c =>
          if copyMatchesRow row c then { c with status := "Available" } else c
      else s.books
    ({ books := books2, logs := logs2 }, none)
  else (s, some .notFound)

/-- Titles of catalog rows whose status is `borrowed` (case-insensitively),
stripped — `sync_missing_open_logs` (library_webapp.py:402-405) and the
health check (library_webapp.py:497). -/
def borrowedTitles (books : List Copy) : List String :=
  (books.filter fun c => pyLower c.status == "borrowed").map fun c => pyStrip c.title

/-- Stripped titles of open ledger rows (`Returned` lowercases to `no`) —
library_webapp.py:406-409. -/
def openLogTitles (logs : List LogEntry) : List String :=
  (logs.filter fun e => pyLower e.returned == "no").map fun e => pyStrip e.title

/-- `sorted(borrowed_titles - open_log_titles)` (library_webapp.py:410, and
the same set difference as `missing_log`, library_webapp.py:498): Python set
difference is modelled as dedup-then-remove, then sorted. -/
def missing_open_logs (books : List Copy) (logs : List LogEntry) : List String :=
  (((borrowedTitles books).dedup).filter
    fun t => !((openLogTitles logs).contains t)).mergeSort
      fun a b => decide (a ≤ b)

/-- One synthesized placeholder row of `sync_missing_open_logs`
(library_webapp.py:417-437): blank borrower, the first catalog row matching
the stripped title supplies `Book ID` and `Barcode` (blank when absent),
`Returned = No`. -/
def syncRow (books : List Copy) (nowS dueS : String) (t : String) : LogEntry :=
  { student := "", title := t,
    bookId := ((books.find? fun c => pyStrip c.title == t).map
      fun c => pyStrip c.bookId).getD "",
    dateBorrowed := nowS, dueDate := dueS, returned := "No",
    barcode := ((books.find? fun c => pyStrip c.title == t).map
      fun c => pyStrip c.barcode).getD "" }

/-- `sync_missing_open_logs` (library_webapp.py:401-440): for each borrowed
title with no open ledger row, synthesize a placeholder open row (see
`syncRow`) with the default 14-day loan window (the timestamps are the
opaque preformatted strings `nowS`/`dueS`).  Returns the merged ledger and
the created titles; `books_df` is only read. -/
def sync_missing_open_logs (books : List Copy) (logs : List LogEntry)
    (nowS dueS : String) : List LogEntry × List String :=
  if missing_open_logs books logs = [] then (logs, [])
  else (logs ++ (missing_open_logs books logs).map (syncRow books nowS dueS),
    missing_open_logs books logs)

/-- The auto-sync call site (library_webapp.py:503-509) and the quick-sync
button (library_webapp.py:519-524): run the reconciler and, if it created
anything, save the merged ledger.  `save_books` is never called, so the
catalog component is passed through untouched. -/
def autoSyncStep (s : LibState) (nowS dueS : String) : LibState :=
  if (sync_missing_open_logs s.books s.logs nowS dueS).2 = [] then s
  else { s with logs := (sync_missing_open_logs s.books s.logs nowS dueS).1 }

/-- `hash_password` (library_webapp.py:26-27): the SHA-256 hex digest of the
password.  `hashlib.sha256(...).hexdigest()` is a Python-stdlib primitive,
modelled as an abstract digest function passed in as `sha256_hexdigest`. -/
def hash_password (sha256_hexdigest : String → String) (p : String) : String :=
  sha256_hexdigest p

/-- The `USERS` dict (library_webapp.py:29-32). -/
def USERS (sha256_hexdigest : String → String) : List (String × String) :=
  [("admin", hash_password sha256_hexdigest "admin123"),
   ("teacher", hash_password sha256_hexdigest "tzuchi2025")]

/-- `verify_login` (library_webapp.py:34-35):
`USERS.get(username) == hash_password(password)`.  `dict.get` of a missing
key yields `None`, and `None == <str>` is `False` in Python, never an
exception. -/
def verify_login (sha256_hexdigest : String → String)
    (username password : String) : Bool :=
  match (USERS sha256_hexdigest).lookup username with
  | none => false
  | some digest => digest == hash_password sha256_hexdigest password

theorem char_toNat_ofNat_valid {m : Nat} (h : m < 55296) :
    (Char.ofNat m).toNat = m := by
  rw [Char.ofNat, dif_pos (Or.inl h)]
  rfl

theorem uint32_le_iff {a b : UInt32} : a ≤ b ↔ a.toNat ≤ b.toNat :=
  UInt32.le_def.trans BitVec.le_def

theorem char_isAlphanum_iff {c : Char} :
    c.isAlphanum = true ↔
      (48 ≤ c.toNat ∧ c.toNat ≤ 57) ∨ (65 ≤ c.toNat ∧ c.toNat ≤ 90) ∨
        (97 ≤ c.toNat ∧ c.toNat ≤ 122) := by
  have h48 : (48 : UInt32).toNat = 48 := rfl
  have h57 : (57 : UInt32).toNat = 57 := rfl
  have h65 : (65 : UInt32).toNat = 65 := rfl
  have h90 : (90 : UInt32).toNat = 90 := rfl
  have h97 : (97 : UInt32).toNat = 97 := rfl
  have h122 : (122 : UInt32).toNat = 122 := rfl
  simp only [Char.isAlphanum, Char.isAlpha, Char.isUpper, Char.isLower, Char.isDigit,
    Bool.or_eq_true, Bool.and_eq_true, decide_eq_true_eq, ge_iff_le, uint32_le_iff,
    h48, h57, h65, h90, h97, h122, Char.toNat]
  omega

theorem char_toUpper_of_lower {c : Char} (h1 : 97 ≤ c.toNat) (h2 : c.toNat ≤ 122) :
    c.toUpper = Char.ofNat (c.toNat - 32) := by
  rw [Char.toUpper, if_pos ⟨h1, h2⟩]

theorem char_toUpper_of_not_lower {c : Char} (h : ¬(97 ≤ c.toNat ∧ c.toNat ≤ 122)) :
    c.toUpper = c := by
  rw [Char.toUpper, if_neg h]

/-- On an alphanumeric character, `toUpper` stays alphanumeric and is
idempotent — the per-character facts behind idempotence of `_canon`. -/
theorem char_toUpper_alnum {c : Char} (h : c.isAlphanum = true) :
    c.toUpper.isAlphanum = true ∧ c.toUpper.toUpper = c.toUpper := by
  by_cases hl : 97 ≤ c.toNat ∧ c.toNat ≤ 122
  · obtain ⟨h1, h2⟩ := hl
    have hval : (Char.ofNat (c.toNat - 32)).toNat = c.toNat - 32 :=
      char_toNat_ofNat_valid (by omega)
    rw [char_toUpper_of_lower h1 h2]
    constructor
    · rw [char_isAlphanum_iff, hval]
      right; left; omega
    · apply char_toUpper_of_not_lower
      rw [hval]; omega
  · rw [char_toUpper_of_not_lower hl]
    exact ⟨h, char_toUpper_of_not_lower hl⟩

theorem canonList_idem (l : List Char) : canonList (canonList l) = canonList l := by
  induction l with
  | nil => rfl
  | cons c cs ih =>
    by_cases h : c.isAlphanum = true
    · obtain ⟨hup, hidem⟩ := char_toUpper_alnum h
      simp only [canonList] at ih ⊢
      rw [List.filter_cons_of_pos h, List.map_cons, List.filter_cons_of_pos hup,
        List.map_cons, hidem, ih]
    · simp only [canonList] at ih ⊢
      rw [List.filter_cons_of_neg h]
      exact ih

theorem dropWhile_head_not {p : α → Bool} {l : List α} {a : α} {t : List α}
    (h : l.dropWhile p = a :: t) : p a = false := by
  induction l with
  | nil => simp at h
  | cons b bs ih =>
    rw [List.dropWhile_cons] at h
    by_cases hb : p b = true
    · rw [if_pos hb] at h; exact ih h
    · rw [if_neg hb] at h
      cases h; simpa using hb

theorem dropWhile_eq_self_of_head {p : α → Bool} {a : α} {t : List α}
    (h : p a = false) : (a :: t).dropWhile p = a :: t := by
  rw [List.dropWhile_cons, if_neg (by simp [h])]

theorem dropWhile_eq_self_of_head? {p : α → Bool} {l : List α} {a : α}
    (h1 : l.head? = some a) (h2 : p a = false) : l.dropWhile p = l := by
  cases l with
  | nil => simp at h1
  | cons b t =>
    rw [List.head?_cons, Option.some_inj] at h1
    subst h1
    exact dropWhile_eq_self_of_head h2

theorem dropWhile_getLast? {p : α → Bool} {l : List α}
    (h : l.dropWhile p ≠ []) : (l.dropWhile p).getLast? = l.getLast? := by
  conv_rhs => rw [← List.takeWhile_append_dropWhile p l]
  rw [List.getLast?_append]
  cases hgl : (l.dropWhile p).getLast? with
  | none => exact absurd (by simpa using hgl) h
  | some a => rfl

/-- `str.strip()` is idempotent. -/
theorem pyStrip_idem (s : String) : pyStrip (pyStrip s) = pyStrip s := by
  unfold pyStrip
  congr 1
  have hA : ((s.data.dropWhile Char.isWhitespace).reverse.dropWhile
      Char.isWhitespace).reverse.dropWhile Char.isWhitespace =
      ((s.data.dropWhile Char.isWhitespace).reverse.dropWhile
        Char.isWhitespace).reverse := by
    cases h2 : (s.data.dropWhile Char.isWhitespace).reverse.dropWhile
        Char.isWhitespace with
    | nil => simp
    | cons a t =>
      have hne : (s.data.dropWhile Char.isWhitespace).reverse.dropWhile
          Char.isWhitespace ≠ [] := by rw [h2]; simp
      have hlast : (a :: t).getLast? =
          (s.data.dropWhile Char.isWhitespace).head? := by
        rw [← h2, dropWhile_getLast? hne, List.getLast?_reverse]
      cases hh : (s.data.dropWhile Char.isWhitespace).head? with
      | none =>
        rw [hh] at hlast
        simp [List.getLast?_eq_none_iff] at hlast
      | some b =>
        have hb : Char.isWhitespace b = false := by
          have := List.head?_dropWhile_not Char.isWhitespace s.data
          rw [hh] at this
          exact this
        apply dropWhile_eq_self_of_head?
        · rw [List.head?_reverse, hlast, hh]
        · exact hb
  rw [hA, List.reverse_reverse]
  congr 1
  cases h2 : (s.data.dropWhile Char.isWhitespace).reverse.dropWhile
      Char.isWhitespace with
  | nil => simp
  | cons a t =>
    have ha : Char.isWhitespace a = false := dropWhile_head_not h2
    exact dropWhile_eq_self_of_head ha

theorem countKey_nil (k : String × String × String) : countKey k [] = 0 := rfl

theorem countKey_cons (k : String × String × String) (c : Copy) (l : List Copy) :
    countKey k (c :: l) = (if copyKey c == k then 1 else 0) + countKey k l := by
  simp only [countKey, List.filter_cons]
  by_cases h : (copyKey c == k) = true
  · rw [if_pos h, if_pos h, List.length_cons]; omega
  · rw [if_neg h, if_neg h]; omega

theorem countKey_append (k : String × String × String) (l : List Copy) (c : Copy) :
    countKey k (l ++ [c]) = countKey k l + (if copyKey c == k then 1 else 0) := by
  simp only [countKey, List.filter_append, List.length_append, List.filter_cons,
    List.filter_nil]
  by_cases h : (copyKey c == k) = true
  · rw [if_pos h, if_pos h]; rfl
  · rw [if_neg h, if_neg h]; rfl

theorem ordGo_map_fst (seen l : List Copy) : (ordGo seen l).map Prod.fst = l := by
  induction l generalizing seen with
  | nil => rfl
  | cons c rest ih => simp only [ordGo, List.map_cons, ih]

theorem ordGo_length (seen l : List Copy) : (ordGo seen l).length = l.length := by
  induction l generalizing seen with
  | nil => rfl
  | cons c rest ih => simp [ordGo, ih]

theorem ordGo_getElem (seen l : List Copy) (i : Nat) (hi : i < l.length) :
    (ordGo seen l).get ⟨i, by rw [ordGo_length]; exact hi⟩ =
      (l[i], countKey (copyKey l[i]) (seen ++ l.take i) + 1) := by
  simp only [List.get_eq_getElem]
  induction l generalizing seen i with
  | nil => simp at hi
  | cons c rest ih =>
    cases i with
    | zero => simp [ordGo]
    | succ j =>
      have hj : j < rest.length := by simpa using hi
      simp only [ordGo, List.getElem_cons_succ, List.take_succ_cons]
      rw [ih (seen ++ [c]) j hj]
      simp

/-- The ordinals handed to the rows of one `(title, id, barcode)` group, read
in row order, form the contiguous run starting one past the count of
same-key rows already seen. -/
theorem ordGo_group (seen l : List Copy) (k : String × String × String) :
    ((ordGo seen l).filter fun p => copyKey p.1 == k).map Prod.snd =
      List.range' (countKey k seen + 1) (countKey k l) := by
  induction l generalizing seen with
  | nil => simp [ordGo, countKey_nil]
  | cons c rest ih =>
    simp only [ordGo, List.filter_cons]
    by_cases h : (copyKey c == k) = true
    · have hck : copyKey c = k := by simpa using h
      rw [if_pos h, List.map_cons, ih (seen ++ [c])]
      have h1 : countKey k (seen ++ [c]) = countKey k seen + 1 := by
        rw [countKey_append, if_pos h]
      have h2 : countKey k (c :: rest) = countKey k rest + 1 := by
        rw [countKey_cons, if_pos h]; omega
      rw [h1, h2, List.range'_succ, hck]
    · rw [if_neg h, ih (seen ++ [c])]
      have h1 : countKey k (seen ++ [c]) = countKey k seen := by
        rw [countKey_append, if_neg h]; omega
      have h2 : countKey k (c :: rest) = countKey k rest := by
        rw [countKey_cons, if_neg h]; omega
      rw [h1, h2]

theorem find?_eq_of_unique {p : α → Bool} {l : List α} {i : Nat}
    (hi : i < l.length) (hp : p (l[i]) = true)
    (huniq : ∀ j (hj : j < l.length), p (l[j]) = true → j = i) :
    l.find? p = some (l[i]) := by
  induction l generalizing i with
  | nil => simp at hi
  | cons a t ih =>
    by_cases ha : p a = true
    · have h0 : (0 : Nat) = i := huniq 0 (by simp) (by simpa using ha)
      rw [List.find?_cons_of_pos t ha]
      cases h0
      simp
    · rw [List.find?_cons_of_neg t ha]
      cases i with
      | zero => rw [List.getElem_cons_zero] at hp; exact absurd hp ha
      | succ j =>
        have hj : j < t.length := by simpa using hi
        have hp' : p (t[j]) = true := by simpa using hp
        have huniq' : ∀ j' (hj' : j' < t.length), p (t[j']) = true → j' = j := by
          intro j' hj' hpj'
          have := huniq (j' + 1) (by simpa using hj') (by simpa using hpj')
          omega
        rw [ih hj hp' huniq']
        simp

theorem assignOrdinals_length (l : List Copy) :
    (assignOrdinals l).length = l.length := ordGo_length [] l

theorem assignOrdinals_getElem (l : List Copy) (i : Nat) (hi : i < l.length) :
    (assignOrdinals l).get ⟨i, by rw [assignOrdinals_length]; exact hi⟩ =
      (l[i], countKey (copyKey l[i]) (l.take i) + 1) := by
  simp only [List.get_eq_getElem]
  have h2 := ordGo_getElem [] l i hi
  simp only [List.get_eq_getElem] at h2
  simpa [assignOrdinals] using h2

theorem keysOf_length (l : List Copy) : (keysOf l).length = l.length := by
  simp [keysOf, assignOrdinals_length]

theorem keysOf_getElem (l : List Copy) (i : Nat) (hi : i < l.length) :
    (keysOf l).get ⟨i, by rw [keysOf_length]; exact hi⟩ =
      rowKeyOf l[i] (countKey (copyKey l[i]) (l.take i) + 1) := by
  simp only [List.get_eq_getElem, keysOf]
  rw [List.getElem_map]
  have h2 := assignOrdinals_getElem l i hi
  simp only [List.get_eq_getElem] at h2
  rw [h2]

theorem setStatusByRowKey_length (l : List Copy) (k st : String) :
    (setStatusByRowKey l k st).length = l.length := by
  simp [setStatusByRowKey, assignOrdinals_length]

theorem setStatusByRowKey_getElem (l : List Copy) (k st : String) (i : Nat)
    (hi : i < l.length) :
    (setStatusByRowKey l k st).get ⟨i, by rw [setStatusByRowKey_length]; exact hi⟩ =
      if rowKeyOf l[i] (countKey (copyKey l[i]) (l.take i) + 1) == k
      then { l[i] with status := st } else l[i] := by
  simp only [List.get_eq_getElem, setStatusByRowKey]
  rw [List.getElem_map]
  have h2 := assignOrdinals_getElem l i hi
  simp only [List.get_eq_getElem] at h2
  rw [h2]

theorem findByRowKey_of_unique (l : List Copy) (k : String) (i : Nat)
    (hi : i < l.length)
    (hki : ((keysOf l).get ⟨i, by rw [keysOf_length]; exact hi⟩ == k) = true)
    (huniq : ∀ j (hj : j < l.length),
      ((keysOf l).get ⟨j, by rw [keysOf_length]; exact hj⟩ == k) = true → j = i) :
    findByRowKey l k = some (l[i], countKey (copyKey l[i]) (l.take i) + 1) := by
  have hlen : i < (assignOrdinals l).length := by
    rw [assignOrdinals_length]; exact hi
  have hgi := assignOrdinals_getElem l i hi
  simp only [List.get_eq_getElem] at hgi
  have hky := keysOf_getElem l i hi
  simp only [List.get_eq_getElem] at hky
  simp only [List.get_eq_getElem] at hki huniq
  have hp : (fun p => rowKeyOf p.1 p.2 == k) ((assignOrdinals l)[i]) = true := by
    rw [hgi]
    have h2 := hki
    rw [hky] at h2
    exact h2
  have huniq' : ∀ j (hj : j < (assignOrdinals l).length),
      (fun p => rowKeyOf p.1 p.2 == k) ((assignOrdinals l)[j]) = true → j = i := by
    intro j hj hpj
    have hj' : j < l.length := by rw [← assignOrdinals_length]; exact hj
    apply huniq j hj'
    have hgj := assignOrdinals_getElem l j hj'
    simp only [List.get_eq_getElem] at hgj
    have hkj := keysOf_getElem l j hj'
    simp only [List.get_eq_getElem] at hkj
    rw [hkj]
    rw [hgj] at hpj
    exact hpj
  show (assignOrdinals l).find? (fun p => rowKeyOf p.1 p.2 == k) = _
  rw [find?_eq_of_unique hlen hp huniq', hgi]

/-- C5: `_canon` is total (a Lean function) and idempotent —
`_canon(_canon(s)) = _canon(s)` for every string, including the null case;
case/spacing/punctuation variants collapse to one key
(`_canon("A-12 b") = _canon("a12B")`), and null or empty input yields the
empty string. -/
theorem canon_total_idem_insensitive (s : Option String) :
    _canon (some (_canon s)) = _canon s ∧
      _canon (some "A-12 b") = _canon (some "a12B") ∧
      _canon none = "" ∧ _canon (some "") = "" := by
  refine ⟨?_, by decide, rfl, rfl⟩
  cases s with
  | none =>
    show String.mk (canonList ("" : String).data) = ""
    rfl
  | some t =>
    show String.mk (canonList (String.mk (canonList t.data)).data) =
      String.mk (canonList t.data)
    exact congrArg String.mk (canonList_idem t.data)

/-- C6: in any loaded catalog, the rows of one `(title, external_id,
barcode)` group receive, in row order, exactly the ordinals `1, …, N` where
`N` is the group's size — gap-free, each used once, and deterministic
because `assignOrdinals` is a pure function of the table. -/
theorem load_books_group_ordinals (rows : List Copy) (k : String × String × String) :
    ((assignOrdinals (load_books rows)).filter fun p => copyKey p.1 == k).map
        Prod.snd =
      List.range' 1 (countKey k (load_books rows)) := by
  have h := ordGo_group [] (load_books rows) k
  simpa [assignOrdinals, countKey_nil] using h

/-- C7: every copy surviving `load_books` has status exactly `Available` or
`Borrowed` and is not blank in all of title/id/barcode (all-blank rows are
excluded); and a status whose lowercasing is not a recognized value — the
blank string included — normalizes to `Available`. -/
theorem load_books_status_invariant (rows : List Copy) (c : Copy) (s : String)
    (hc : c ∈ load_books rows)
    (hs : pyLower s ∉ (["available", "borrowed", "out", "issued"] : List String)) :
    ((c.status = "Available" ∨ c.status = "Borrowed") ∧
        ¬(c.title = "" ∧ c.bookId = "" ∧ c.barcode = "")) ∧
      normalizeStatus s = "Available" ∧ normalizeStatus "" = "Available" := by
  refine ⟨⟨?_, ?_⟩, ?_, by decide⟩
  · simp only [load_books, List.mem_map] at hc
    obtain ⟨r, _, hr⟩ := hc
    subst hr
    show normalizeStatus r.status = "Available" ∨ normalizeStatus r.status = "Borrowed"
    unfold normalizeStatus
    split_ifs <;> simp
  · simp only [load_books, List.mem_map, List.mem_filter] at hc
    obtain ⟨r, ⟨_, hkeep⟩, hr⟩ := hc
    subst hr
    simp only [Bool.not_eq_true', Bool.and_eq_false_iff, beq_eq_false_iff_ne] at hkeep
    intro h
    obtain ⟨h1, h2, h3⟩ := h
    rcases hkeep with (h | h) | h
    · exact h h1
    · exact h h2
    · exact h h3
  · unfold normalizeStatus
    split_ifs with g1 g2 g3 g4 g5
    · exact absurd (by rw [g1]; simp) hs
    · exact absurd (by rw [g2]; simp) hs
    · exact absurd (by rw [g3]; simp) hs
    · exact absurd (by rw [g4]; simp) hs
    · rfl
    · rfl

theorem load_books_status_invariant_witness :
    (((⟨"1", "T", "A", "Available", "B"⟩ : Copy).status = "Available" ∨
        (⟨"1", "T", "A", "Available", "B"⟩ : Copy).status = "Borrowed") ∧
      ¬((⟨"1", "T", "A", "Available", "B"⟩ : Copy).title = "" ∧
        (⟨"1", "T", "A", "Available", "B"⟩ : Copy).bookId = "" ∧
        (⟨"1", "T", "A", "Available", "B"⟩ : Copy).barcode = "")) ∧
      normalizeStatus "lost??" = "Available" ∧ normalizeStatus "" = "Available" :=
  load_books_status_invariant [⟨"1", "T", "A", "weird", "B"⟩]
    ⟨"1", "T", "A", "Available", "B"⟩ "lost??" (by decide) (by decide)

/-- C8: every ledger entry surviving `load_logs` has `Returned` exactly
`Yes` or `No`; a stored value whose lowercasing is outside the recognized
set `{yes, y, true, 1, no, n, false, 0}` — the blank string included —
normalizes to `No`, i.e. counts as an open loan. -/
theorem load_logs_returned_invariant (rows : List LogEntry) (e : LogEntry)
    (s : String) (he : e ∈ load_logs rows)
    (hs : pyLower s ∉
      (["yes", "y", "true", "1", "no", "n", "false", "0"] : List String)) :
    (e.returned = "Yes" ∨ e.returned = "No") ∧
      normalizeReturned s = "No" ∧ normalizeReturned "" = "No" := by
  refine ⟨?_, ?_, by decide⟩
  · simp only [load_logs, List.mem_filter, List.mem_map] at he
    obtain ⟨⟨e1, he1, he1e⟩, _⟩ := he
    subst he1e
    show normalizeReturned e1.returned = "Yes" ∨
      normalizeReturned e1.returned = "No"
    unfold normalizeReturned
    split_ifs <;> simp
  · unfold normalizeReturned
    split_ifs with g1 g2 g3 g4 g5 g6 g7 g8
    · exact absurd (by rw [g1]; simp) hs
    · exact absurd (by rw [g2]; simp) hs
    · exact absurd (by rw [g3]; simp) hs
    · exact absurd (by rw [g4]; simp) hs
    · exact absurd (by rw [g5]; simp) hs
    · exact absurd (by rw [g6]; simp) hs
    · exact absurd (by rw [g7]; simp) hs
    · exact absurd (by rw [g8]; simp) hs
    · rfl

theorem load_logs_returned_invariant_witness :
    ((⟨"Amy", "Dune", "1", "d", "e", "No", "B"⟩ : LogEntry).returned = "Yes" ∨
      (⟨"Amy", "Dune", "1", "d", "e", "No", "B"⟩ : LogEntry).returned = "No") ∧
      normalizeReturned "maybe" = "No" ∧ normalizeReturned "" = "No" :=
  load_logs_returned_invariant [⟨"Amy", "Dune", "1", "d", "e", "pending", "B"⟩]
    ⟨"Amy", "Dune", "1", "d", "e", "No", "B"⟩ "maybe" (by decide) (by decide)

/-- C9: `verify_login` is a total Bool-valued function; it returns `true`
exactly when the username is a configured user whose stored digest equals
the digest of the supplied password, and it returns `false` (rather than
failing) for every username missing from the user table.  The SHA-256
hexdigest primitive is abstracted as `sha256_hexdigest`. -/
theorem verify_login_spec (sha256_hexdigest : String → String)
    (u p : String) :
    (verify_login sha256_hexdigest u p = true ↔
      ∃ d, (USERS sha256_hexdigest).lookup u = some d ∧
        d = hash_password sha256_hexdigest p) ∧
    ((USERS sha256_hexdigest).lookup u = none →
      verify_login sha256_hexdigest u p = false) := by
  unfold verify_login
  cases hk : (USERS sha256_hexdigest).lookup u with
  | none => simp
  | some d =>
    constructor
    · simp [beq_iff_eq]
    · intro h
      simp at h

theorem verify_login_spec_witness :
    verify_login (fun s => s) "ghost" "pw" = false :=
  (verify_login_spec (fun s => s) "ghost" "pw").2 (by decide)

theorem contains_iff_mem {a : String} {l : List String} :
    l.contains a = true ↔ a ∈ l := by
  simp [List.contains_iff_exists_mem_beq, beq_iff_eq]

theorem mergeSort_eq_nil_iff {l : List α} {le : α → α → Bool} :
    l.mergeSort le = [] ↔ l = [] := by
  constructor
  · intro h
    have hp := List.mergeSort_perm l le
    rw [h] at hp
    exact hp.symm.eq_nil
  · intro h
    subst h
    simp

theorem missing_open_logs_eq_nil_iff (books : List Copy) (logs : List LogEntry) :
    missing_open_logs books logs = [] ↔
      ∀ t ∈ borrowedTitles books, t ∈ openLogTitles logs := by
  unfold missing_open_logs
  rw [mergeSort_eq_nil_iff, List.filter_eq_nil_iff]
  constructor
  · intro h t ht
    have h2 := h t (List.mem_dedup.mpr ht)
    simpa [contains_iff_mem] using h2
  · intro h t ht
    simp only [Bool.not_eq_true', Bool.not_eq_false]
    exact contains_iff_mem.mpr (h t (List.mem_dedup.mp ht))

/-- C4: reconciler idempotence — after one repair pass, divergence
detection on the repaired ledger finds no `missing_open_logs`: every
borrowed title now has an open ledger entry, so a second repair would
create nothing. -/
theorem reconciler_repair_idem (books : List Copy) (logs : List LogEntry)
    (nowS dueS : String) :
    missing_open_logs books (sync_missing_open_logs books logs nowS dueS).1 = [] := by
  by_cases h : missing_open_logs books logs = []
  · unfold sync_missing_open_logs
    rw [if_pos h]
    exact h
  · unfold sync_missing_open_logs
    rw [if_neg h]
    rw [missing_open_logs_eq_nil_iff]
    intro t ht
    show t ∈ openLogTitles
      (logs ++ (missing_open_logs books logs).map (syncRow books nowS dueS))
    unfold openLogTitles
    rw [List.filter_append, List.map_append]
    by_cases hin : t ∈ openLogTitles logs
    · exact List.mem_append_left _ hin
    · have htc : t ∈ missing_open_logs books logs := by
        unfold missing_open_logs
        rw [List.mem_mergeSort, List.mem_filter]
        refine ⟨List.mem_dedup.mpr ht, ?_⟩
        have hc : (openLogTitles logs).contains t = false :=
          Bool.eq_false_iff.mpr fun hcon => hin (contains_iff_mem.mp hcon)
        rw [hc]
        rfl
      have hidem : pyStrip t = t := by
        unfold borrowedTitles at ht
        obtain ⟨c, _, hc⟩ := List.mem_map.mp ht
        rw [← hc, pyStrip_idem]
      apply List.mem_append_right
      rw [List.mem_map]
      refine ⟨syncRow books nowS dueS t, ?_, hidem⟩
      rw [List.mem_filter]
      refine ⟨List.mem_map.mpr ⟨t, htc, rfl⟩, rfl⟩

/-- C10: the reconciler's repair path never touches the catalog — the call
site saves only the merged ledger, so `autoSyncStep` passes `books` through
unchanged for every state — and on an input whose borrowed titles all
already have an open ledger entry, `sync_missing_open_logs` returns the
ledger exactly as given with an empty created-titles list. -/
theorem sync_frame_and_noop (s s2 : LibState) (nowS dueS n2 d2 : String)
    (hcov : ∀ c ∈ s.books, pyLower c.status = "borrowed" →
      pyStrip c.title ∈ openLogTitles s.logs) :
    (autoSyncStep s2 n2 d2).books = s2.books ∧
      sync_missing_open_logs s.books s.logs nowS dueS = (s.logs, []) := by
  constructor
  · unfold autoSyncStep
    by_cases h : (sync_missing_open_logs s2.books s2.logs n2 d2).2 = []
    · rw [if_pos h]
    · rw [if_neg h]
  · have hnil : missing_open_logs s.books s.logs = [] := by
      rw [missing_open_logs_eq_nil_iff]
      intro t ht
      unfold borrowedTitles at ht
      obtain ⟨c, hcmem, hc⟩ := List.mem_map.mp ht
      rw [List.mem_filter] at hcmem
      obtain ⟨hcm, hcb⟩ := hcmem
      rw [← hc]
      exact hcov c hcm (by simpa using hcb)
    unfold sync_missing_open_logs
    rw [if_pos hnil]

theorem sync_frame_and_noop_witness :
    (autoSyncStep ⟨[⟨"2", "U", "a", "Available", "C"⟩], []⟩ "x" "y").books =
        (⟨[⟨"2", "U", "a", "Available", "C"⟩], []⟩ : LibState).books ∧
      sync_missing_open_logs
          (⟨[⟨"1", "T", "a", "Borrowed", "B"⟩],
            [⟨"Amy", "T", "1", "d", "e", "No", "B"⟩]⟩ : LibState).books
          (⟨[⟨"1", "T", "a", "Borrowed", "B"⟩],
            [⟨"Amy", "T", "1", "d", "e", "No", "B"⟩]⟩ : LibState).logs
          "n" "m" =
        ((⟨[⟨"1", "T", "a", "Borrowed", "B"⟩],
            [⟨"Amy", "T", "1", "d", "e", "No", "B"⟩]⟩ : LibState).logs, []) :=
  sync_frame_and_noop
    ⟨[⟨"1", "T", "a", "Borrowed", "B"⟩], [⟨"Amy", "T", "1", "d", "e", "No", "B"⟩]⟩
    ⟨[⟨"2", "U", "a", "Available", "C"⟩], []⟩ "n" "m" "x" "y" (by decide)

/-- C1 counterexample: borrower `Amy` already holds an open loan on
`Other` (`Returned = No`), yet a Borrow of the available `Dune` copy by
`Amy` without override SUCCEEDS (no error) and changes both tables — the
handler checks only the selected copy's status, never the borrower's open
loans, so the claimed one-open-loan `Conflict` rejection does not happen. -/
theorem one_open_loan_counterexample :
    (borrowStep ⟨[⟨"1", "Dune", "x", "Available", "BC1"⟩],
        [⟨"Amy", "Other", "2", "d1", "d2", "No", "B2"⟩]⟩ "Amy"
        (some "Dune||1||BC1||1") false "t1" "t2").2 = none ∧
      (borrowStep ⟨[⟨"1", "Dune", "x", "Available", "BC1"⟩],
          [⟨"Amy", "Other", "2", "d1", "d2", "No", "B2"⟩]⟩ "Amy"
          (some "Dune||1||BC1||1") false "t1" "t2").1 =
        ⟨[⟨"1", "Dune", "x", "Borrowed", "BC1"⟩],
          [⟨"Amy", "Other", "2", "d1", "d2", "No", "B2"⟩,
           ⟨"Amy", "Dune", "1", "t1", "t2", "No", "BC1"⟩]⟩ := by
  constructor
  · decide
  · decide

/-- C1 (amended): the only `Conflict` rejection the Borrow handler
performs is per-copy — when the selected copy is already marked `Borrowed`
and the back-capture override is off, the borrow is rejected with the
conflict error and both tables are left unchanged.  A borrower's own open
loans are not checked in this iteration. -/
theorem borrow_conflict_per_copy (s : LibState) (student k nowS dueS : String)
    (r : Copy) (n : Nat) (hstu : student ≠ "")
    (hfind : findByRowKey s.books k = some (r, n))
    (hb : r.status = "Borrowed") :
    borrowStep s student (some k) false nowS dueS = (s, some OpError.conflict) := by
  unfold borrowStep
  simp only [hfind, if_neg hstu, hb]
  rfl

theorem borrow_conflict_per_copy_witness :
    borrowStep ⟨[⟨"1", "Dune", "x", "Borrowed", "BC1"⟩], []⟩ "Bob"
        (some "Dune||1||BC1||1") false "t1" "t2" =
      (⟨[⟨"1", "Dune", "x", "Borrowed", "BC1"⟩], []⟩, some OpError.conflict) :=
  borrow_conflict_per_copy ⟨[⟨"1", "Dune", "x", "Borrowed", "BC1"⟩], []⟩
    "Bob" "Dune||1||BC1||1" "t1" "t2" ⟨"1", "Dune", "x", "Borrowed", "BC1"⟩ 1
    (by decide) (by decide) (by decide)

/-- C2 counterexample: the selected open ledger row for `Dune` has no
barcode; the sole catalog copy of `Dune` carries barcode `BC9`.  The
claimed fallback to a title match would set that copy `Available`, but the
Return handler requires title, id AND barcode to all match, so the return
closes the ledger row while the copy stays `Borrowed`. -/
theorem return_barcode_fallback_counterexample :
    (returnStep ⟨[⟨"", "Dune", "x", "Borrowed", "BC9"⟩],
        [⟨"Amy", "Dune", "", "d", "e", "No", ""⟩]⟩
      ⟨"Amy", "Dune", "", "d", "e", "No", ""⟩).2 = none ∧
      (returnStep ⟨[⟨"", "Dune", "x", "Borrowed", "BC9"⟩],
          [⟨"Amy", "Dune", "", "d", "e", "No", ""⟩]⟩
        ⟨"Amy", "Dune", "", "d", "e", "No", ""⟩).1 =
        ⟨[⟨"", "Dune", "x", "Borrowed", "BC9"⟩],
          [⟨"Amy", "Dune", "", "d", "e", "Yes", ""⟩]⟩ := by
  constructor
  · decide
  · decide

/-- Pointwise description of the Return handler when the selected row has
a ledger match: each ledger row matching on (student, title, borrow date)
gets `Returned = Yes`, each catalog row matching the stripped
`(title, id, barcode)` tuple gets `Status = Available`, everything else is
untouched. -/
theorem returnStep_spec (s : LibState) (row : LogEntry)
    (hmatch : s.logs.any (logMatch row) = true) :
    (returnStep s row).2 = none ∧
      (returnStep s row).1.logs.length = s.logs.length ∧
      (returnStep s row).1.books.length = s.books.length ∧
      (∀ j : Nat, ((returnStep s row).1.logs)[j]? =
        (s.logs[j]?).map fun e =>
          if logMatch row e then { e with returned := "Yes" } else e) ∧
      (∀ j : Nat, ((returnStep s row).1.books)[j]? =
        (s.books[j]?).map fun c =>
          if copyMatchesRow row c then { c with status := "Available" } else c) := by
  unfold returnStep
  rw [if_pos hmatch]
  refine ⟨rfl, by simp, ?_, ?_, ?_⟩
  · show (if s.books.any (copyMatchesRow row) = true then _ else s.books).length =
      s.books.length
    by_cases hg : s.books.any (copyMatchesRow row) = true
    · rw [if_pos hg, List.length_map]
    · rw [if_neg hg]
  · intro j
    exact List.getElem?_map _ s.logs j
  · intro j
    by_cases hg : s.books.any (copyMatchesRow row) = true
    · show (if s.books.any (copyMatchesRow row) = true then _ else s.books)[j]? = _
      rw [if_pos hg]
      exact List.getElem?_map _ s.books j
    · show (if s.books.any (copyMatchesRow row) = true then _ else s.books)[j]? = _
      rw [if_neg hg]
      cases hj : s.books[j]? with
      | none => simp
      | some c =>
        have hc : c ∈ s.books := List.getElem?_mem hj
        have hfalse : copyMatchesRow row c = false := by
          have hany : s.books.any (copyMatchesRow row) = false :=
            Bool.eq_false_iff.mpr hg
          rw [List.any_eq_false] at hany
          exact Bool.eq_false_iff.mpr (hany c hc)
        simp [hfalse]

/-- C2 (amended): a Return of a ledger row that exists flips `Returned` to
`Yes` on every ledger row agreeing with it on student, title and borrow
date, and sets `Status = Available` on exactly the catalog rows whose
stripped `(title, book id, barcode)` all equal the row's stripped fields —
a conjunctive three-field match, not a barcode-preferred match with
title-only fallback; when no copy matches all three fields the catalog is
unchanged. -/
theorem return_updates_matching_rows (s : LibState) (row : LogEntry)
    (hmatch : s.logs.any (logMatch row) = true) :
    (returnStep s row).2 = none ∧
      (∀ j : Nat, ((returnStep s row).1.logs)[j]? =
        (s.logs[j]?).map fun e =>
          if logMatch row e then { e with returned := "Yes" } else e) ∧
      (∀ j : Nat, ((returnStep s row).1.books)[j]? =
        (s.books[j]?).map fun c =>
          if copyMatchesRow row c then { c with status := "Available" } else c) := by
  obtain ⟨h1, _, _, h4, h5⟩ := returnStep_spec s row hmatch
  exact ⟨h1, h4, h5⟩

theorem return_updates_matching_rows_witness :
    (returnStep ⟨[⟨"7", "Dune", "x", "Borrowed", "BC1"⟩],
        [⟨"Amy", "Dune", "7", "d", "e", "No", "BC1"⟩]⟩
      ⟨"Amy", "Dune", "7", "d", "e", "No", "BC1"⟩).2 = none ∧
      (∀ j : Nat, ((returnStep ⟨[⟨"7", "Dune", "x", "Borrowed", "BC1"⟩],
          [⟨"Amy", "Dune", "7", "d", "e", "No", "BC1"⟩]⟩
        ⟨"Amy", "Dune", "7", "d", "e", "No", "BC1"⟩).1.logs)[j]? =
        (([⟨"Amy", "Dune", "7", "d", "e", "No", "BC1"⟩] :
            List LogEntry)[j]?).map fun e =>
          if logMatch ⟨"Amy", "Dune", "7", "d", "e", "No", "BC1"⟩ e
          then { e with returned := "Yes" } else e) ∧
      (∀ j : Nat, ((returnStep ⟨[⟨"7", "Dune", "x", "Borrowed", "BC1"⟩],
          [⟨"Amy", "Dune", "7", "d", "e", "No", "BC1"⟩]⟩
        ⟨"Amy", "Dune", "7", "d", "e", "No", "BC1"⟩).1.books)[j]? =
        (([⟨"7", "Dune", "x", "Borrowed", "BC1"⟩] : List Copy)[j]?).map fun c =>
          if copyMatchesRow ⟨"Amy", "Dune", "7", "d", "e", "No", "BC1"⟩ c
          then { c with status := "Available" } else c) :=
  return_updates_matching_rows
    ⟨[⟨"7", "Dune", "x", "Borrowed", "BC1"⟩],
      [⟨"Amy", "Dune", "7", "d", "e", "No", "BC1"⟩]⟩
    ⟨"Amy", "Dune", "7", "d", "e", "No", "BC1"⟩ (by decide)

theorem logEntry_set_returned (e : LogEntry) (h : e.returned = "Yes") :
    ({ e with returned := "Yes" } : LogEntry) = e := by
  cases e
  simp only at h
  rw [h]

theorem copy_set_status (c : Copy) (h : c.status = "Available") :
    ({ c with status := "Available" } : Copy) = c := by
  cases c
  simp only at h
  rw [h]

/-- C3 counterexample: the catalog holds two copies sharing
`(title, id, barcode) = (T, 1, B1)` — copy #1 `Available`, copy #2
`Borrowed` — and the ledger is empty, so the round-trip preconditions hold
for borrower `Bob` and copy #1.  Borrowing copy #1 and returning that loan
succeeds, but the Return's conjunctive tuple match also flips copy #2 to
`Available`: another copy IS altered, refuting the claim's frame clause. -/
theorem round_trip_counterexample :
    (borrowStep ⟨[⟨"1", "T", "a", "Available", "B1"⟩,
        ⟨"1", "T", "a", "Borrowed", "B1"⟩], []⟩ "Bob"
        (some "T||1||B1||1") false "n1" "n2").2 = none ∧
      (returnStep (borrowStep ⟨[⟨"1", "T", "a", "Available", "B1"⟩,
          ⟨"1", "T", "a", "Borrowed", "B1"⟩], []⟩ "Bob"
          (some "T||1||B1||1") false "n1" "n2").1
        ⟨"Bob", "T", "1", "n1", "n2", "No", "B1"⟩).2 = none ∧
      (returnStep (borrowStep ⟨[⟨"1", "T", "a", "Available", "B1"⟩,
          ⟨"1", "T", "a", "Borrowed", "B1"⟩], []⟩ "Bob"
          (some "T||1||B1||1") false "n1" "n2").1
        ⟨"Bob", "T", "1", "n1", "n2", "No", "B1"⟩).1.books[1]? =
        some ⟨"1", "T", "a", "Available", "B1"⟩ := by
  refine ⟨by decide, by decide, by decide⟩

theorem copy_set_status_twice (c : Copy) (a b : String) :
    ({ ({ c with status := b } : Copy) with status := a } : Copy) =
      { c with status := a } := by
  cases c
  rfl

/-- C3 (amended): starting from a catalog where copy C (row `i`) is
`Available` with a `_ROW_KEY` unique to it, and a well-formed ledger with
no open entry for borrower B, borrowing C by B and then returning that
loan leaves C `Available`, marks the created entry `Returned = Yes`, and
alters no other ledger entry; it alters no other copy PROVIDED no other
copy shares C's stripped `(title, id, barcode)` tuple — a copy sharing the
tuple would also be reset `Available` by the Return's conjunctive match
(see the counterexample). -/
theorem borrow_return_round_trip (s : LibState) (B k nowS dueS : String)
    (i : Nat) (hi : i < s.books.length) (hB : B ≠ "")
    (hav : (s.books[i]).status = "Available")
    (hkey : (keysOf s.books).get ⟨i, by rw [keysOf_length]; exact hi⟩ = k)
    (huniq : ∀ j (hj : j < s.books.length),
      (keysOf s.books).get ⟨j, by rw [keysOf_length]; exact hj⟩ = k → j = i)
    (hnoopen : ∀ e ∈ s.logs, e.student = B → e.returned ≠ "No")
    (hwf : ∀ e ∈ s.logs, e.returned = "Yes" ∨ e.returned = "No")
    (hnoshare : ∀ j (hj : j < s.books.length), j ≠ i →
      copyMatchesRow (mkBorrowEntry B (s.books[i]) nowS dueS)
        (s.books[j]) = false) :
    (borrowStep s B (some k) false nowS dueS).2 = none ∧
      (returnStep (borrowStep s B (some k) false nowS dueS).1
        (mkBorrowEntry B (s.books[i]) nowS dueS)).2 = none ∧
      (returnStep (borrowStep s B (some k) false nowS dueS).1
        (mkBorrowEntry B (s.books[i]) nowS dueS)).1.books[i]? =
        some (s.books[i]) ∧
      (∀ j : Nat, j ≠ i →
        (returnStep (borrowStep s B (some k) false nowS dueS).1
          (mkBorrowEntry B (s.books[i]) nowS dueS)).1.books[j]? =
          s.books[j]?) ∧
      (∀ j : Nat, j < s.logs.length →
        (returnStep (borrowStep s B (some k) false nowS dueS).1
          (mkBorrowEntry B (s.books[i]) nowS dueS)).1.logs[j]? =
          s.logs[j]?) ∧
      (returnStep (borrowStep s B (some k) false nowS dueS).1
        (mkBorrowEntry B (s.books[i]) nowS dueS)).1.logs[s.logs.length]? =
        some { mkBorrowEntry B (s.books[i]) nowS dueS with
          returned := "Yes" } ∧
      (returnStep (borrowStep s B (some k) false nowS dueS).1
        (mkBorrowEntry B (s.books[i]) nowS dueS)).1.logs.length =
        s.logs.length + 1 := by
  have hki : ((keysOf s.books).get ⟨i, by rw [keysOf_length]; exact hi⟩ == k) = true :=
    beq_iff_eq.mpr hkey
  have huniq2 : ∀ j (hj : j < s.books.length),
      ((keysOf s.books).get ⟨j, by rw [keysOf_length]; exact hj⟩ == k) = true → j = i :=
    fun j hj hjk => huniq j hj (beq_iff_eq.mp hjk)
  have hfind : findByRowKey s.books k =
      some (s.books[i],
        countKey (copyKey (s.books[i])) (s.books.take i) + 1) :=
    findByRowKey_of_unique s.books k i hi hki huniq2
  have hb1 : borrowStep s B (some k) false nowS dueS =
      ({ books := setStatusByRowKey s.books k "Borrowed",
         logs := s.logs ++ [mkBorrowEntry B (s.books[i]) nowS dueS] }, none) := by
    unfold borrowStep
    simp only [hfind, if_neg hB, hav]
    rfl
  have hmatch : (LibState.mk (setStatusByRowKey s.books k "Borrowed")
      (s.logs ++ [mkBorrowEntry B (s.books[i]) nowS dueS])).logs.any
      (logMatch (mkBorrowEntry B (s.books[i]) nowS dueS)) = true := by
    show (s.logs ++ [mkBorrowEntry B (s.books[i]) nowS dueS]).any _ = true
    simp [logMatch]
  obtain ⟨hr0, hrlen, hrblen, hrlogs, hrbooks⟩ :=
    returnStep_spec (LibState.mk (setStatusByRowKey s.books k "Borrowed")
      (s.logs ++ [mkBorrowEntry B (s.books[i]) nowS dueS]))
      (mkBorrowEntry B (s.books[i]) nowS dueS) hmatch
  have hbi : (setStatusByRowKey s.books k "Borrowed")[i]? =
      some { s.books[i] with status := "Borrowed" } := by
    rw [List.getElem?_eq_getElem (by rw [setStatusByRowKey_length]; exact hi)]
    congr 1
    have hs2 := setStatusByRowKey_getElem s.books k "Borrowed" i hi
    simp only [List.get_eq_getElem] at hs2
    rw [hs2]
    have hky := keysOf_getElem s.books i hi
    simp only [List.get_eq_getElem] at hky
    have hcond : rowKeyOf (s.books[i])
        (countKey (copyKey (s.books[i])) (s.books.take i) + 1) = k := by
      rw [← hky]
      exact hkey
    rw [hcond]
    simp
  have hbooks_i : (returnStep (LibState.mk (setStatusByRowKey s.books k "Borrowed")
      (s.logs ++ [mkBorrowEntry B (s.books[i]) nowS dueS]))
      (mkBorrowEntry B (s.books[i]) nowS dueS)).1.books[i]? =
      some (s.books[i]) := by
    rw [hrbooks i]
    show ((setStatusByRowKey s.books k "Borrowed")[i]?).map _ = _
    rw [hbi]
    have hmask : copyMatchesRow (mkBorrowEntry B (s.books[i]) nowS dueS)
        { s.books[i] with status := "Borrowed" } = true := by
      simp [copyMatchesRow, mkBorrowEntry]
    simp only [Option.map_some', hmask, if_true]
    rw [copy_set_status_twice, copy_set_status _ hav]
  have hbooks_j : ∀ j : Nat, j ≠ i →
      (returnStep (LibState.mk (setStatusByRowKey s.books k "Borrowed")
        (s.logs ++ [mkBorrowEntry B (s.books[i]) nowS dueS]))
        (mkBorrowEntry B (s.books[i]) nowS dueS)).1.books[j]? =
      s.books[j]? := by
    intro j hji
    rw [hrbooks j]
    show ((setStatusByRowKey s.books k "Borrowed")[j]?).map _ = _
    by_cases hj : j < s.books.length
    · have hb1j : (setStatusByRowKey s.books k "Borrowed")[j]? =
          some (s.books[j]) := by
        rw [List.getElem?_eq_getElem (by rw [setStatusByRowKey_length]; exact hj)]
        congr 1
        have hs2 := setStatusByRowKey_getElem s.books k "Borrowed" j hj
        simp only [List.get_eq_getElem] at hs2
        rw [hs2]
        have hkj := keysOf_getElem s.books j hj
        simp only [List.get_eq_getElem] at hkj
        have hcond : (rowKeyOf (s.books[j])
            (countKey (copyKey (s.books[j])) (s.books.take j) + 1) == k) = false := by
          apply Bool.eq_false_iff.mpr
          intro hc
          exact hji (huniq j hj
            (by simp only [List.get_eq_getElem]; rw [hkj]; exact beq_iff_eq.mp hc))
        simp [hcond]
      rw [hb1j]
      simp only [Option.map_some', hnoshare j hj hji, if_false]
      exact (List.getElem?_eq_getElem hj).symm
    · have hj2 : s.books.length ≤ j := Nat.le_of_not_lt hj
      rw [List.getElem?_eq_none (by rw [setStatusByRowKey_length]; exact hj2),
        List.getElem?_eq_none hj2]
      rfl
  have hlogs_j : ∀ j : Nat, j < s.logs.length →
      (returnStep (LibState.mk (setStatusByRowKey s.books k "Borrowed")
        (s.logs ++ [mkBorrowEntry B (s.books[i]) nowS dueS]))
        (mkBorrowEntry B (s.books[i]) nowS dueS)).1.logs[j]? =
      s.logs[j]? := by
    intro j hj
    rw [hrlogs j]
    show ((s.logs ++ [mkBorrowEntry B (s.books[i]) nowS dueS])[j]?).map _ = _
    rw [List.getElem?_append_left hj, List.getElem?_eq_getElem hj]
    simp only [Option.map_some']
    by_cases hm : logMatch (mkBorrowEntry B (s.books[i]) nowS dueS)
        (s.logs[j]) = true
    · have hmem : s.logs[j] ∈ s.logs := List.getElem_mem hj
      have hstu : (s.logs[j]).student = B := by
        simp only [logMatch, mkBorrowEntry, Bool.and_eq_true, beq_iff_eq] at hm
        exact hm.1.1
      have hret : (s.logs[j]).returned = "Yes" := by
        rcases hwf _ hmem with h | h
        · exact h
        · exact absurd h (hnoopen _ hmem hstu)
      rw [if_pos hm, logEntry_set_returned _ hret]
    · rw [if_neg hm]
  have hlogs_last : (returnStep (LibState.mk (setStatusByRowKey s.books k "Borrowed")
      (s.logs ++ [mkBorrowEntry B (s.books[i]) nowS dueS]))
      (mkBorrowEntry B (s.books[i]) nowS dueS)).1.logs[s.logs.length]? =
      some { mkBorrowEntry B (s.books[i]) nowS dueS with returned := "Yes" } := by
    rw [hrlogs s.logs.length]
    show ((s.logs ++ [mkBorrowEntry B (s.books[i]) nowS dueS])[s.logs.length]?).map _ = _
    rw [List.getElem?_append_right (Nat.le_refl _)]
    simp [logMatch]
  have hlen : (returnStep (LibState.mk (setStatusByRowKey s.books k "Borrowed")
      (s.logs ++ [mkBorrowEntry B (s.books[i]) nowS dueS]))
      (mkBorrowEntry B (s.books[i]) nowS dueS)).1.logs.length =
      s.logs.length + 1 := by
    rw [hrlen]
    show (s.logs ++ [mkBorrowEntry B (s.books[i]) nowS dueS]).length = _
    simp
  rw [hb1]
  exact ⟨rfl, hr0, hbooks_i, hbooks_j, hlogs_j, hlogs_last, hlen⟩

theorem borrow_return_round_trip_witness :
    (borrowStep ⟨[⟨"1", "T", "a", "Available", "B1"⟩], []⟩ "Bob"
        (some "T||1||B1||1") false "n1" "n2").2 = none ∧
      (returnStep (borrowStep ⟨[⟨"1", "T", "a", "Available", "B1"⟩], []⟩ "Bob"
          (some "T||1||B1||1") false "n1" "n2").1
        (mkBorrowEntry "Bob" ⟨"1", "T", "a", "Available", "B1"⟩ "n1" "n2")).2 =
        none ∧
      (returnStep (borrowStep ⟨[⟨"1", "T", "a", "Available", "B1"⟩], []⟩ "Bob"
          (some "T||1||B1||1") false "n1" "n2").1
        (mkBorrowEntry "Bob" ⟨"1", "T", "a", "Available", "B1"⟩
          "n1" "n2")).1.books[0]? =
        some ⟨"1", "T", "a", "Available", "B1"⟩ ∧
      (∀ j : Nat, j ≠ 0 →
        (returnStep (borrowStep ⟨[⟨"1", "T", "a", "Available", "B1"⟩], []⟩ "Bob"
            (some "T||1||B1||1") false "n1" "n2").1
          (mkBorrowEntry "Bob" ⟨"1", "T", "a", "Available", "B1"⟩
            "n1" "n2")).1.books[j]? =
          ([⟨"1", "T", "a", "Available", "B1"⟩] : List Copy)[j]?) ∧
      (∀ j : Nat, j < ([] : List LogEntry).length →
        (returnStep (borrowStep ⟨[⟨"1", "T", "a", "Available", "B1"⟩], []⟩ "Bob"
            (some "T||1||B1||1") false "n1" "n2").1
          (mkBorrowEntry "Bob" ⟨"1", "T", "a", "Available", "B1"⟩
            "n1" "n2")).1.logs[j]? =
          ([] : List LogEntry)[j]?) ∧
      (returnStep (borrowStep ⟨[⟨"1", "T", "a", "Available", "B1"⟩], []⟩ "Bob"
          (some "T||1||B1||1") false "n1" "n2").1
        (mkBorrowEntry "Bob" ⟨"1", "T", "a", "Available", "B1"⟩
          "n1" "n2")).1.logs[([] : List LogEntry).length]? =
        some { mkBorrowEntry "Bob" ⟨"1", "T", "a", "Available", "B1"⟩
          "n1" "n2" with returned := "Yes" } ∧
      (returnStep (borrowStep ⟨[⟨"1", "T", "a", "Available", "B1"⟩], []⟩ "Bob"
          (some "T||1||B1||1") false "n1" "n2").1
        (mkBorrowEntry "Bob" ⟨"1", "T", "a", "Available", "B1"⟩
          "n1" "n2")).1.logs.length =
        ([] : List LogEntry).length + 1 :=
  borrow_return_round_trip ⟨[⟨"1", "T", "a", "Available", "B1"⟩], []⟩ "Bob"
    "T||1||B1||1" "n1" "n2" 0 (by decide) (by decide) (by decide) (by decide)
    (by decide) (by decide) (by decide) (by decide)
